import Mathlib

/-!
Verification of the conformal calibration and interval-construction subsystem of
the CPdM pipeline (src/CPdM_pipeline.py) against its natural-language design
specification.  Python float arithmetic is embedded over an arbitrary linear
ordered field (instantiated at `ℚ` for concrete evaluation and at `ℝ` where the
source uses `exp` / `sqrt`); NaN-producing operations (mean of an empty array,
Bessel-corrected standard deviation of fewer than two points) are embedded as
`Option`-valued functions returning `none` where numpy would return NaN.
-/

namespace CPdM

variable {α : Type*} [LinearOrderedField α]

/-- Element-wise `np.clip(v, 0, None)`: clamp every entry to `max v 0`
(source lines 489, 533, 914, 917, 990, 992, 1099, 1111). -/
def clampList (l : List α) : List α := l.map (fun x => max x 0)

/-- The tail of the sequential monotone pass: given the running value `prev`,
each entry is replaced by `min entry prev` and becomes the new running value.
This is the loop `for i in range(1, len(p)): if p[i] > p[i-1]: p[i] = p[i-1]`
of source lines 534-536, 911-913, 987-989 and 1096-1098. -/
def monoAux (prev : α) : List α → List α
  | [] => []
  | x :: xs => min x prev :: monoAux (min x prev) xs

/-- The sequential monotone (non-increasing) projection: the first entry is kept,
every later entry is replaced by the minimum of itself and the running value. -/
def monoPass : List α → List α
  | [] => []
  | x :: xs => x :: monoAux x xs

/-- Prediction post-processing as performed in `evaluate_conformal_metrics_per_unit`
(lines 910-914), `plot_conformal_single_unit`'s unit path (lines 985-990) and
`plot_conformal_multiple_units` (lines 1092-1099): monotone pass on the raw
predictions, then element-wise clamp at 0. -/
def postProcessPerUnit (raw : List α) : List α := clampList (monoPass raw)

/-- The intermediate `tpreds = np.clip(model_predict_fn(X_test), 0, None)` of
`plot_conformal_prediction_interval`, line 533: the raw test-set predictions
are clamped at 0 BEFORE any monotone pass. -/
def globalTpredsClamped (raw : List α) : List α := clampList raw

/-- Prediction post-processing as performed in `plot_conformal_prediction_interval`
(lines 533-536): clamp first (line 533), then the sequential monotone pass
(lines 534-536), with no further clamp. -/
def postProcessGlobal (raw : List α) : List α := monoPass (globalTpredsClamped raw)

/-- Interval lower bounds `np.clip(preds - margin, 0, None)`
(source lines 545, 732-733, 866, 917, 992, 1111); the upper bound is the
post-processed prediction itself. -/
def intervalLower (t : List α) (m : α) : List α := t.map (fun x => max (x - m) 0)

/- ----------------------------------------------------------------------------
Basic facts about the post-processor.
---------------------------------------------------------------------------- -/

/-- Every entry of a clamped list is non-negative. -/
theorem clampList_mem_nonneg {l : List α} {x : α} (hx : x ∈ clampList l) : 0 ≤ x := by
  rcases List.mem_map.1 hx with ⟨y, _, rfl⟩
  exact le_max_right y 0

/-- `getD` with a non-negative default over a list of non-negative entries is
non-negative. -/
theorem getD_nonneg {l : List α} {d : α} (h : ∀ x ∈ l, 0 ≤ x) (hd : 0 ≤ d) (i : ℕ) :
    0 ≤ l.getD i d := by
  induction l generalizing i with
  | nil => simpa [List.getD]
  | cons y ys ih =>
    cases i with
    | zero => exact h y (List.mem_cons_self y ys)
    | succ j => exact ih (fun x hx => h x (List.mem_cons_of_mem y hx)) j

/-- The monotone tail starting at `prev` forms a non-increasing chain from `prev`. -/
theorem chain_monoAux (xs : List α) (prev : α) :
    List.Chain' (fun a b => b ≤ a) (prev :: monoAux prev xs) := by
  induction xs generalizing prev with
  | nil => simp [monoAux]
  | cons x xs ih =>
    rw [monoAux]
    exact List.Chain'.cons (min_le_right x prev) (ih (min x prev))

/-- The monotone pass yields a non-increasing list. -/
theorem chain_monoPass (l : List α) :
    List.Chain' (fun a b => b ≤ a) (monoPass l) := by
  cases l with
  | nil => simp [monoPass]
  | cons x xs => exact chain_monoAux xs x

/-- Clamping at 0 preserves non-increasing chains. -/
theorem chain_clampList {l : List α} (h : List.Chain' (fun a b => b ≤ a) l) :
    List.Chain' (fun a b => b ≤ a) (clampList l) := by
  rw [clampList, List.chain'_map]
  exact h.imp (fun {a b} hba => max_le_max hba le_rfl)

/-- Key distributivity: running the monotone tail after clamping equals clamping
after the monotone tail, because `max (· ) 0` distributes over `min` in a linear
order. -/
theorem monoAux_clamp (xs : List α) (prev : α) :
    monoAux (max prev 0) (clampList xs) = clampList (monoAux prev xs) := by
  induction xs generalizing prev with
  | nil => simp [monoAux, clampList]
  | cons x xs ih =>
    simp only [clampList, List.map_cons, monoAux]
    have hmm : min (max x 0) (max prev 0) = max (min x prev) 0 :=
      (max_min_distrib_right x prev 0).symm
    rw [hmm]
    exact congrArg (List.cons _) (ih (min x prev))

/-- The two post-processing orders that occur in the source agree: clamping first
and projecting afterwards computes the same list as projecting first and
clamping afterwards. -/
theorem monoPass_clampList (l : List α) :
    monoPass (clampList l) = clampList (monoPass l) := by
  cases l with
  | nil => simp [monoPass, clampList]
  | cons x xs =>
    simp only [clampList, List.map_cons, monoPass]
    exact congrArg (List.cons _) (monoAux_clamp xs x)

/- ----------------------------------------------------------------------------
Numpy-style numeric helpers used by the margin estimators.
---------------------------------------------------------------------------- -/

/-- `np.sort`: ascending sort (insertion sort; numpy's sort agrees with it up to
permutation of equal elements, which never affects the sorted value list). -/
def sortAsc (l : List α) : List α := l.insertionSort (· ≤ ·)

/-- `np.argsort`: the original indices of the entries listed in ascending order
of value.  Embedded as a stable sort of `(index, value)` pairs by value; numpy's
default quicksort agrees with it whenever the values are distinct. -/
def argsortList (l : List α) : List ℕ :=
  (l.enum.insertionSort (fun p q => p.2 ≤ q.2)).map Prod.fst

/-- `np.mean` of a 1-d array: `none` models the NaN produced on an empty array. -/
def npMean (l : List α) : Option α :=
  if l.length = 0 then none else some (l.sum / l.length)

/-- `np.median` of a 1-d array: middle order statistic (odd length) or the mean
of the two middle order statistics (even length); `none` models the NaN produced
on an empty array. -/
def npMedian (l : List α) : Option α :=
  let s := sortAsc l
  let n := s.length
  if n = 0 then none
  else if n % 2 = 1 then some (s.getD (n / 2) 0)
  else some ((s.getD (n / 2 - 1) 0 + s.getD (n / 2) 0) / 2)

/-- `np.cumsum` with running accumulator `acc`. -/
def cumsumFrom (acc : α) : List α → List α
  | [] => []
  | x :: xs => (acc + x) :: cumsumFrom (acc + x) xs

/-- `np.cumsum` of a 1-d array. -/
def cumsum (l : List α) : List α := cumsumFrom 0 l

/-- `np.searchsorted(a, v)` (side `left`) on a sorted array returns the number
of entries strictly below `v`; the arrays it is applied to in the source are
cumulative sums of strictly positive weights, hence sorted. -/
def countBelow (v : α) : List α → ℕ
  | [] => 0
  | x :: xs => (if x < v then 1 else 0) + countBelow v xs

/-- `np.quantile(l, q)` with the default linear interpolation between order
statistics: with `h = q*(n-1)`, interpolate between the order statistics at
positions `⌊h⌋` and `⌊h⌋+1` (the source always calls it with `q = 1 - alpha`).
A single-element array returns its element; an empty array is never passed by
the call sites modelled here. -/
def npQuantile [FloorRing α] (l : List α) (q : α) : α :=
  let s := sortAsc l
  let n := s.length
  let h := q * ((n : α) - 1)
  let i := (Int.floor h).toNat
  let lo := s.getD i 0
  let hi := s.getD (i + 1) lo
  lo + (h - (i : α)) * (hi - lo)

/-- Membership in `sortAsc` is membership in the original list. -/
theorem mem_sortAsc {l : List α} {x : α} : x ∈ sortAsc l ↔ x ∈ l :=
  (List.perm_insertionSort (· ≤ ·) l).mem_iff

/-- A quantile of a non-empty list of non-negative values at a non-negative
level is non-negative. -/
theorem npQuantile_nonneg [FloorRing α] {l : List α} {q : α}
    (hl : l ≠ []) (hq : 0 ≤ q) (h : ∀ x ∈ l, 0 ≤ x) : 0 ≤ npQuantile l q := by
  have hmem : ∀ x ∈ sortAsc l, 0 ≤ x := fun x hx => h x (mem_sortAsc.1 hx)
  have hn : 1 ≤ (sortAsc l).length := by
    have : sortAsc l ≠ [] := by
      intro hnil
      exact hl (List.eq_nil_of_length_eq_zero
        ((List.length_insertionSort (· ≤ ·) l) ▸ (hnil ▸ rfl : (sortAsc l).length = 0)))
    exact List.length_pos.2 this
  set s := sortAsc l with hs
  set n := s.length with hndef
  have hn1 : (0:α) ≤ (n : α) - 1 := by
    have : (1:α) ≤ (n : α) := by exact_mod_cast hn
    linarith
  set hh := q * ((n : α) - 1) with hhdef
  have hh0 : 0 ≤ hh := mul_nonneg hq hn1
  set i := (Int.floor hh).toNat with hidef
  have hiz : ((i : ℤ)) = Int.floor hh := Int.toNat_of_nonneg (Int.floor_nonneg.2 hh0)
  have hcast : (i : α) = ((Int.floor hh : ℤ) : α) := by
    exact_mod_cast congrArg (fun z : ℤ => (z : α)) hiz
  have hile : (i : α) ≤ hh := by
    have := Int.floor_le hh
    rw [hcast]; exact this
  have hilt : hh < (i : α) + 1 := by
    have := Int.lt_floor_add_one hh
    rw [hcast]; exact this
  have hlo : 0 ≤ s.getD i 0 := getD_nonneg hmem le_rfl i
  have hhi : 0 ≤ s.getD (i + 1) (s.getD i 0) := getD_nonneg hmem hlo (i + 1)
  show 0 ≤ s.getD i 0 + (hh - (i : α)) * (s.getD (i + 1) (s.getD i 0) - s.getD i 0)
  have hexp : s.getD i 0 + (hh - (i : α)) * (s.getD (i + 1) (s.getD i 0) - s.getD i 0)
      = (1 - (hh - (i : α))) * s.getD i 0 + (hh - (i : α)) * s.getD (i + 1) (s.getD i 0) := by
    ring
  rw [hexp]
  have hf0 : 0 ≤ hh - (i : α) := by linarith
  have hf1 : hh - (i : α) ≤ 1 := by linarith
  exact add_nonneg (mul_nonneg (by linarith) hlo) (mul_nonneg hf0 hhi)

/- ----------------------------------------------------------------------------
Residual margin estimators.
---------------------------------------------------------------------------- -/

/-- `naive_quantile_margin` (lines 492-493): the `(1-alpha)`-quantile of the
absolute calibration residuals. -/
def naive_quantile_margin [FloorRing α] (absRes : List α) (alpha : α) : α :=
  npQuantile absRes (1 - alpha)

/-- One bootstrap resample (`rng.choice(abs_res, size=n, replace=True)`,
lines 512 / 691 / 847): `n` draws from the residual list, the `k`-th draw of
resample `b` taken at the stream position `b*n + k` of the seeded generator.
The generator itself (numpy `default_rng`) is an external collaborator modelled
as an arbitrary function `draw` from stream position to index. -/
def resampleDraw (draw : ℕ → ℕ) (absRes : List α) (n b : ℕ) : List α :=
  (List.range n).map (fun k => absRes.getD (draw (b * n + k) % n) 0)

/-- The `B` per-resample `(1-alpha)`-quantiles collected by the bootstrap loop
(lines 510-513 / 689-693 / 845-848). -/
def bootstrapQuantiles [FloorRing α] (draw : ℕ → ℕ) (absRes : List α) (alpha : α)
    (B : ℕ) : List α :=
  (List.range B).map
    (fun b => npQuantile (resampleDraw draw absRes absRes.length b) (1 - alpha))

/-- `bootstrap_margin` of the global path (lines 506-514): the MEAN of the `B`
resample quantiles. -/
def bootstrap_margin_mean [FloorRing α] (draw : ℕ → ℕ) (absRes : List α) (alpha : α)
    (B : ℕ) : Option α :=
  npMean (bootstrapQuantiles draw absRes alpha B)

/-- `bootstrap_margin` of the single-unit / per-unit paths (lines 683-694 and
839-849): the MEDIAN of the `B` resample quantiles. -/
def bootstrap_margin_median [FloorRing α] (draw : ℕ → ℕ) (absRes : List α) (alpha : α)
    (B : ℕ) : Option α :=
  npMedian (bootstrapQuantiles draw absRes alpha B)

/-- `jackknife_plus_margin` of the global path (lines 515-516): delegates to the
naive quantile. -/
def jackknife_plus_margin_global [FloorRing α] (absRes : List α) (alpha : α) : α :=
  naive_quantile_margin absRes alpha

/-- `cv_plus_margin` of the global path (lines 517-518): delegates to the naive
quantile. -/
def cv_plus_margin_global [FloorRing α] (absRes : List α) (alpha : α) : α :=
  naive_quantile_margin absRes alpha

/-- The weight vector `np.exp(np.arange(n) / (n/5.0))` (lines 497 / 671 / 829):
the entry at position `i` is `exp(i/(n/5))`. -/
noncomputable def weightVec (n : ℕ) : List ℝ :=
  (List.range n).map (fun i : ℕ => Real.exp ((i : ℝ) / ((n : ℝ) / 5)))

/-- `weighted_exponential_margin` / `weighted_margin` (lines 494-505, 666-681,
824-837): the weights are permuted by `argsort` (`w_sorted = weights[w_sorted_idx]`),
so the weight attached to the `k`-th SMALLEST residual is
`exp(origIndex_k / (n/5))` where `origIndex_k` is that residual's ORIGINAL
position; the cumulative sum of those permuted weights is cut at
`(1-alpha) * total`, the selected index clamped to `n-1`, and the corresponding
sorted residual returned. -/
noncomputable def weighted_exponential_margin (absRes : List ℝ) (alpha : ℝ) : ℝ :=
  let n := absRes.length
  let sortedRes := sortAsc absRes
  let wSorted := (argsortList absRes).map (fun j => (weightVec n).getD j 0)
  let cdf := cumsum wSorted
  let totalW := cdf.getLastD 0
  let cutoff := (1 - alpha) * totalW
  let idx := min (countBelow cutoff cdf) (n - 1)
  sortedRes.getD idx 0

/-- Modelled from the spec: the weighted-exponential estimator as the spec
describes it, with the weight `exp(rank/(n/5))` attached to each residual by its
RANK in the ascending order (so the cumulative distribution is taken over the
unpermuted weight vector).  Stated for comparison with
`weighted_exponential_margin`, which is the estimator the source implements. -/
noncomputable def weighted_margin_rankSpec (absRes : List ℝ) (alpha : ℝ) : ℝ :=
  let n := absRes.length
  let sortedRes := sortAsc absRes
  let wSorted := weightVec n
  let cdf := cumsum wSorted
  let totalW := cdf.getLastD 0
  let cutoff := (1 - alpha) * totalW
  let idx := min (countBelow cutoff cdf) (n - 1)
  sortedRes.getD idx 0

/-- `np.mean` as the plain value `sum/length` (used inside the variance of a
list already known to be non-empty). -/
def sampleMean (l : List α) : α := l.sum / l.length

/-- The square of `np.std(res, ddof=1)` (lines 661 / 820): Bessel-corrected
sample variance.  For fewer than two residuals numpy's `0/0` (or mean of an
empty array) yields NaN, modelled as `none`. -/
def sampleVarianceBessel (res : List α) : Option α :=
  if res.length ≤ 1 then none
  else some ((res.map (fun x => (x - sampleMean res) ^ 2)).sum / ((res.length : α) - 1))

/-- `parametric_margin` (lines 658-664, 817-822): `z_{1-alpha} * sample_std_dev`
over the SIGNED residuals.  `zval` stands for `scipy.stats.norm.ppf(1 - alpha)`,
an external collaborator; it is non-negative exactly when `alpha ≤ 1/2`.
`none` models the NaN standard deviation of fewer than two residuals. -/
noncomputable def parametric_margin (zval : ℝ) (res : List ℝ) : Option ℝ :=
  (sampleVarianceBessel res).map (fun v => zval * Real.sqrt v)

/-- `jackknife_plus_margin` of the single-unit path (lines 696-698): delegates
to the parametric margin. -/
noncomputable def jackknife_plus_margin_single (zval : ℝ) (res : List ℝ) : Option ℝ :=
  parametric_margin zval res

/-- `cv_plus_margin` of the single-unit path (lines 700-702): delegates to the
parametric margin. -/
noncomputable def cv_plus_margin_single (zval : ℝ) (res : List ℝ) : Option ℝ :=
  parametric_margin zval res

/-- `np.median([a, b, c])`: the complex / aggregate margin (lines 524, 710, 859)
is the median of three candidate margins. -/
def complexAggregate (a b c : α) : Option α := npMedian [a, b, c]

/- ----------------------------------------------------------------------------
Shared facts about the estimators.
---------------------------------------------------------------------------- -/

/-- The mean of a non-empty list of non-negative values exists and is
non-negative. -/
theorem npMean_some_nonneg {l : List α} (hne : l ≠ []) (h : ∀ x ∈ l, 0 ≤ x) :
    ∃ m, npMean l = some m ∧ 0 ≤ m := by
  have hlen : l.length ≠ 0 := fun h0 => hne (List.eq_nil_of_length_eq_zero h0)
  refine ⟨l.sum / l.length, by simp [npMean, hlen], ?_⟩
  exact div_nonneg (List.sum_nonneg h) (by positivity)

/-- The mean of a non-empty list exists. -/
theorem npMean_isSome {l : List α} (h : l ≠ []) : (npMean l).isSome := by
  have hl : l.length ≠ 0 := fun h0 => h (List.eq_nil_of_length_eq_zero h0)
  simp [npMean, hl]

/-- The median of a non-empty list of non-negative values exists and is
non-negative. -/
theorem npMedian_some_nonneg {l : List α} (hne : l ≠ []) (h : ∀ x ∈ l, 0 ≤ x) :
    ∃ m, npMedian l = some m ∧ 0 ≤ m := by
  have hmem : ∀ x ∈ sortAsc l, 0 ≤ x := fun x hx => h x (mem_sortAsc.1 hx)
  have hlen : (sortAsc l).length ≠ 0 := by
    intro h0
    exact hne (List.eq_nil_of_length_eq_zero
      ((List.length_insertionSort (· ≤ ·) l) ▸ h0))
  rcases Nat.even_or_odd (sortAsc l).length with he | ho
  · have hmod : (sortAsc l).length % 2 = 0 := Nat.even_iff.1 he
    have h1 := getD_nonneg hmem le_rfl ((sortAsc l).length / 2 - 1)
    have h2 := getD_nonneg hmem le_rfl ((sortAsc l).length / 2)
    refine ⟨((sortAsc l).getD ((sortAsc l).length / 2 - 1) 0
        + (sortAsc l).getD ((sortAsc l).length / 2) 0) / 2, ?_, by positivity⟩
    simp only [npMedian]
    rw [if_neg hlen, if_neg (by omega : ¬((sortAsc l).length % 2 = 1))]
  · have hmod : (sortAsc l).length % 2 = 1 := Nat.odd_iff.1 ho
    refine ⟨(sortAsc l).getD ((sortAsc l).length / 2) 0, ?_,
      getD_nonneg hmem le_rfl _⟩
    simp only [npMedian]
    rw [if_neg hlen, if_pos hmod]

/-- Every bootstrap resample quantile is non-negative when the residuals are
non-negative. -/
theorem bootstrapQuantiles_nonneg [FloorRing α] (draw : ℕ → ℕ) (B : ℕ)
    {absRes : List α} {alpha : α} (hne : absRes ≠ []) (ha : alpha ≤ 1)
    (h : ∀ x ∈ absRes, 0 ≤ x) :
    ∀ x ∈ bootstrapQuantiles draw absRes alpha B, 0 ≤ x := by
  intro x hx
  rcases List.mem_map.1 hx with ⟨b, _, rfl⟩
  have hn : absRes.length ≠ 0 := fun h0 => hne (List.eq_nil_of_length_eq_zero h0)
  refine npQuantile_nonneg ?_ (by linarith) ?_
  · simp [resampleDraw, List.range_eq_nil, hn]
  · intro y hy
    rcases List.mem_map.1 hy with ⟨k, _, rfl⟩
    exact getD_nonneg h le_rfl _

/-- The bootstrap quantile list has length `B`. -/
theorem bootstrapQuantiles_length [FloorRing α] (draw : ℕ → ℕ) (absRes : List α)
    (alpha : α) (B : ℕ) :
    (bootstrapQuantiles draw absRes alpha B).length = B := by
  simp [bootstrapQuantiles]

/-- The weighted-exponential margin is an entry of the sorted residual list (or
the default 0), hence non-negative over non-negative residuals. -/
theorem weighted_exponential_margin_nonneg {absRes : List ℝ} {alpha : ℝ}
    (h : ∀ x ∈ absRes, 0 ≤ x) : 0 ≤ weighted_exponential_margin absRes alpha :=
  getD_nonneg (fun x hx => h x (mem_sortAsc.1 hx)) le_rfl _

/-- So is the rank-weighted variant described by the spec. -/
theorem weighted_margin_rankSpec_nonneg {absRes : List ℝ} {alpha : ℝ}
    (h : ∀ x ∈ absRes, 0 ≤ x) : 0 ≤ weighted_margin_rankSpec absRes alpha :=
  getD_nonneg (fun x hx => h x (mem_sortAsc.1 hx)) le_rfl _

/-- For at least two residuals and a non-negative z-value the parametric margin
exists and is non-negative. -/
theorem parametric_margin_some_nonneg {z : ℝ} {res : List ℝ}
    (hn : 2 ≤ res.length) (hz : 0 ≤ z) :
    ∃ m, parametric_margin z res = some m ∧ 0 ≤ m := by
  have hgt : ¬(res.length ≤ 1) := by omega
  exact ⟨z * Real.sqrt ((res.map (fun x => (x - sampleMean res) ^ 2)).sum
      / ((res.length : ℝ) - 1)),
    by simp [parametric_margin, sampleVarianceBessel, hgt],
    mul_nonneg hz (Real.sqrt_nonneg _)⟩

/-- Entries of `intervalLower` indexed with default 0 are the clamped shifted
entries of the trajectory indexed with default 0 (the margin being non-negative
makes the out-of-range case agree). -/
theorem intervalLower_getD {t : List α} {m : α} (hm : 0 ≤ m) (i : ℕ) :
    (intervalLower t m).getD i 0 = max (t.getD i 0 - m) 0 := by
  induction t generalizing i with
  | nil =>
    simp only [intervalLower, List.map_nil, List.getD_nil]
    rw [eq_comm, max_eq_right (by linarith)]
  | cons x xs ih =>
    cases i with
    | zero => rfl
    | succ j => exact ih j

/-- A margin of zero leaves a non-negative trajectory unchanged. -/
theorem intervalLower_zero {t : List α} (h : ∀ x ∈ t, 0 ≤ x) :
    intervalLower t 0 = t := by
  induction t with
  | nil => rfl
  | cons x xs ih =>
    have hx : 0 ≤ x := h x (List.mem_cons_self x xs)
    have htl := ih (fun y hy => h y (List.mem_cons_of_mem x hy))
    simp only [intervalLower, List.map_cons] at htl ⊢
    rw [htl, sub_zero, max_eq_left hx]

/- ----------------------------------------------------------------------------
Claim C1: the prediction post-processor.
---------------------------------------------------------------------------- -/

/-- C1: for every finite-length raw prediction sequence, the post-processor
(sequential monotone pass followed by the element-wise clamp at 0) returns a
sequence that is non-increasing and non-negative at every index; on the raw
trajectory `[10, 12, 8, 5, 6, -1, 0]` it returns `[10, 10, 8, 5, 5, 0, 0]`. -/
theorem C1_postprocessor_monotone_nonneg (raw : List α) :
    List.Chain' (fun a b => b ≤ a) (postProcessPerUnit raw) ∧
    (∀ i : ℕ, 0 ≤ (postProcessPerUnit raw).getD i 0) ∧
    postProcessPerUnit [(10 : ℚ), 12, 8, 5, 6, -1, 0] = [10, 10, 8, 5, 5, 0, 0] := by
  refine ⟨chain_clampList (chain_monoPass raw),
    fun i => getD_nonneg (fun x hx => clampList_mem_nonneg hx) le_rfl i, ?_⟩
  decide

/- ----------------------------------------------------------------------------
Claim C6: the interval builder.
---------------------------------------------------------------------------- -/

/-- C6: for every post-processed trajectory and every (non-negative) margin, the
interval builder `lower = max(0, pred - margin)`, `upper = pred` satisfies
`lower[i] ≤ upper[i]` at every index, `lower[i] = 0` whenever
`margin ≥ trajectory[i]`, and a zero margin yields a zero-width interval. -/
theorem C6_interval_builder (raw : List α) (m : α) (hm : 0 ≤ m) :
    (∀ i : ℕ, (intervalLower (postProcessPerUnit raw) m).getD i 0
        ≤ (postProcessPerUnit raw).getD i 0) ∧
    (∀ i : ℕ, (postProcessPerUnit raw).getD i 0 ≤ m
        → (intervalLower (postProcessPerUnit raw) m).getD i 0 = 0) ∧
    (m = 0 → intervalLower (postProcessPerUnit raw) m = postProcessPerUnit raw) := by
  have hpos : ∀ i : ℕ, 0 ≤ (postProcessPerUnit raw).getD i 0 :=
    fun i => getD_nonneg (fun x hx => clampList_mem_nonneg hx) le_rfl i
  refine ⟨fun i => ?_, fun i hi => ?_, fun hm0 => ?_⟩
  · rw [intervalLower_getD hm i]
    exact max_le (by linarith [hpos i]) (hpos i)
  · rw [intervalLower_getD hm i]
    exact max_eq_right (by linarith)
  · subst hm0
    exact intervalLower_zero (fun x hx => clampList_mem_nonneg hx)

/-- Witness for C6: margin 3 over the Scenario-B trajectory, evaluated at
index 0. -/
theorem C6_interval_builder_witness :
    (0 : ℚ) ≤ 3 ∧
    (intervalLower (postProcessPerUnit [(10 : ℚ), 12, 8, 5, 6, -1, 0]) 3).getD 0 0
      ≤ (postProcessPerUnit [(10 : ℚ), 12, 8, 5, 6, -1, 0]).getD 0 0 :=
  ⟨by norm_num,
    (C6_interval_builder [(10 : ℚ), 12, 8, 5, 6, -1, 0] 3 (by norm_num)).1 0⟩

/- ----------------------------------------------------------------------------
Claim C8: order of clamping and monotonic projection.
---------------------------------------------------------------------------- -/

/-- C8 counterexample: at the global-interval site (line 533) the FIRST
operation applied to the raw predictions is the clamp, not the monotonic
projection: on the raw input `[-1]` the site's first-stage value `[0]` differs
from the monotonic projection `[-1]` of the raw input, refuting the claim that
every site applies the projection to the raw, unclamped predictions first. -/
theorem C8_order_counterexample :
    globalTpredsClamped [(-1 : ℚ)] ≠ monoPass [(-1 : ℚ)] ∧
    globalTpredsClamped [(-1 : ℚ)] = clampList [(-1 : ℚ)] ∧
    monoPass [(-1 : ℚ)] = [-1] := by
  refine ⟨?_, rfl, rfl⟩
  decide

/-- C8 (amended): the per-unit sites apply the monotonic projection to the raw
predictions and clamp afterwards; the global-interval site clamps first
(line 533) and projects afterwards (lines 534-536); the two orders are
extensionally equal — `max (·) 0` distributes over running minima — so every
post-processing site computes the projected-then-clamped trajectory. -/
theorem C8_postprocessing_sites_agree (raw : List α) :
    postProcessGlobal raw = clampList (monoPass raw) ∧
    postProcessPerUnit raw = clampList (monoPass raw) :=
  ⟨monoPass_clampList raw, rfl⟩

/- ----------------------------------------------------------------------------
Claim C2: totality and non-negativity of the margin estimators.
---------------------------------------------------------------------------- -/

/-- C2 counterexample: on the non-empty residual set `{3}` (degenerate size
n = 1) the parametric-normal estimator does not return a finite value: the
Bessel-corrected sample standard deviation of a single residual is numpy's
`0/0` NaN, so the margin is NaN rather than a finite value ≥ 0 (shown at
z-value 1; the result is `none` for every z-value). -/
theorem C2_parametric_n1_counterexample : parametric_margin 1 [(3 : ℝ)] = none := by
  simp [parametric_margin, sampleVarianceBessel]

/-- C2 (amended): for every non-empty set of non-negative absolute residuals and
every alpha in (0,1), the naive-quantile, weighted-exponential, bootstrap
(mean- and median-aggregated, any positive resample count), global
jackknife+/CV+ (naive delegates) and complex-median estimators return a defined
value ≥ 0, including the degenerate sizes n = 1 and n = 2; the parametric-normal
estimator (and the single-unit jackknife+/CV+, which delegate to it) is defined
only for at least two signed residuals — at n ≤ 1 its sample standard deviation
is NaN — and its value is then ≥ 0 provided the z-value `z_{1-alpha}` is ≥ 0,
i.e. alpha ≤ 1/2. -/
theorem C2_margin_estimators_amended (absRes res : List ℝ) (alpha z : ℝ)
    (draw : ℕ → ℕ) (B : ℕ)
    (hne : absRes ≠ []) (hnn : ∀ x ∈ absRes, 0 ≤ x)
    (ha0 : 0 < alpha) (ha1 : alpha < 1) (hB : 0 < B)
    (hres : 2 ≤ res.length) (hz : 0 ≤ z) :
    0 ≤ naive_quantile_margin absRes alpha ∧
    0 ≤ weighted_exponential_margin absRes alpha ∧
    0 ≤ jackknife_plus_margin_global absRes alpha ∧
    0 ≤ cv_plus_margin_global absRes alpha ∧
    (∃ mb, bootstrap_margin_mean draw absRes alpha B = some mb ∧ 0 ≤ mb) ∧
    (∃ mm, bootstrap_margin_median draw absRes alpha B = some mm ∧ 0 ≤ mm) ∧
    (∃ mp, parametric_margin z res = some mp ∧ 0 ≤ mp) ∧
    (∃ mj, jackknife_plus_margin_single z res = some mj ∧ 0 ≤ mj) ∧
    (∃ mv, cv_plus_margin_single z res = some mv ∧ 0 ≤ mv) ∧
    (∀ a b c : ℝ, 0 ≤ a → 0 ≤ b → 0 ≤ c →
      ∃ mx, complexAggregate a b c = some mx ∧ 0 ≤ mx) := by
  have hq : 0 ≤ naive_quantile_margin absRes alpha :=
    npQuantile_nonneg hne (by linarith) hnn
  have hboot : (bootstrapQuantiles draw absRes alpha B) ≠ [] := by
    intro h0
    have := bootstrapQuantiles_length draw absRes alpha B
    rw [h0] at this
    simp at this
    omega
  have hbootnn := bootstrapQuantiles_nonneg draw B hne
    (by linarith : alpha ≤ 1) hnn
  refine ⟨hq, weighted_exponential_margin_nonneg hnn, hq, hq,
    npMean_some_nonneg hboot hbootnn, npMedian_some_nonneg hboot hbootnn,
    parametric_margin_some_nonneg hres hz, parametric_margin_some_nonneg hres hz,
    parametric_margin_some_nonneg hres hz, ?_⟩
  intro a b c hA hb hc
  refine npMedian_some_nonneg (by simp) ?_
  intro x hx
  simp only [List.mem_cons, List.not_mem_nil, or_false] at hx
  rcases hx with rfl | rfl | rfl
  · exact hA
  · exact hb
  · exact hc

/-- Witness for the amended C2, first conjunct, at residual set `{2}` with
alpha = 1/20. -/
theorem C2_margin_estimators_amended_witness :
    0 ≤ naive_quantile_margin [(2 : ℝ)] (1 / 20) :=
  (C2_margin_estimators_amended [2] [1, 2] (1 / 20) 1 (fun _ => 0) 1
    (by simp) (by intro x hx; simp at hx; simp [hx]) (by norm_num) (by norm_num)
    (by norm_num) (by norm_num) (by norm_num)).1

/- ----------------------------------------------------------------------------
Claim C5: the per-unit coverage/quality evaluator rejects empty sequences.
---------------------------------------------------------------------------- -/

/-- The containment indicator list `(y_true >= lower) & (y_true <= upper)`
(lines 547, 735, 867, 918, 995), one entry per aligned index. -/
def coverageFlags : List α → List α → List α → List α
  | y :: ys, lo :: los, up :: ups =>
      (if lo ≤ y ∧ y ≤ up then 1 else 0) :: coverageFlags ys los ups
  | _, _, _ => []

/-- The first index at which a sequence is ≤ 0, defaulting to the last valid
index when no entry is (lines 538-541, 723-726, 879-882). -/
def firstLeZeroIdx (l : List α) : ℕ :=
  match l.findIdx? (fun x => decide (x ≤ 0)) with
  | some i => i
  | none => l.length - 1

/-- `compute_index_difference` (lines 537-542, 722-727, 878-883): absolute
difference between the first index where the lower bound reaches 0 and the
first index where the true value reaches 0. -/
def compute_index_difference (lowerBounds actual : List α) : ℕ :=
  ((firstLeZeroIdx lowerBounds : ℤ) - (firstLeZeroIdx actual : ℤ)).natAbs

/-- The skip condition raised when a unit has too little data for the window
length or for any prediction (lines 891-893, 904-906): the
InsufficientDataError-class condition of the spec. -/
inductive EvalSkip where
  | insufficientData
deriving DecidableEq

/-- The per-unit metrics record assembled at lines 922-929; `coverage` and
`avgWidth` are `Option`-valued because `np.mean` of an empty array is NaN. -/
structure UnitMetrics (α : Type*) where
  numPredictions : ℕ
  marginVal : α
  coverage : Option α
  avgWidth : Option α
  indexDiff : ℕ
deriving DecidableEq

/-- The per-unit evaluation loop body of `evaluate_conformal_metrics_per_unit`
(lines 887-930): skip the unit when its series is shorter than the window
length or yields no prediction windows (`len(X_list) == 0`, which for a series
of length L and window length s happens exactly when `L - s = 0`); otherwise
post-process the raw model predictions, build the interval, and compute
coverage, average width and the index-difference metric over
`y_true = unit_target[s:]`. -/
def evalUnitMetrics (seqLen : ℕ) (unitTarget rawPreds : List α) (m : α) :
    Except EvalSkip (UnitMetrics α) :=
  if unitTarget.length < seqLen then .error .insufficientData
  else if unitTarget.length - seqLen = 0 then .error .insufficientData
  else
    let yTrue := unitTarget.drop seqLen
    let preds := postProcessPerUnit rawPreds
    let lowerBound := intervalLower preds m
    .ok { numPredictions := preds.length
          marginVal := m
          coverage := npMean (coverageFlags yTrue lowerBound preds)
          avgWidth := npMean (List.zipWith (fun u lo => u - lo) preds lowerBound)
          indexDiff := compute_index_difference lowerBound yTrue }

/-- Post-processing preserves length. -/
theorem postProcessPerUnit_length (l : List α) :
    (postProcessPerUnit l).length = l.length := by
  have hmono : ∀ (xs : List α) (prev : α), (monoAux prev xs).length = xs.length := by
    intro xs
    induction xs with
    | nil => intro prev; rfl
    | cons x xs ih => intro prev; simp [monoAux, ih]
  cases l with
  | nil => rfl
  | cons x xs => simp [postProcessPerUnit, clampList, monoPass, hmono]

/-- The indicator list over three lists of one common positive length is
non-empty. -/
theorem coverageFlags_ne_nil {ys los ups : List α}
    (hy : ys ≠ []) (hlo : los ≠ []) (hup : ups ≠ []) :
    coverageFlags ys los ups ≠ [] := by
  rcases ys with _ | ⟨y, ys⟩
  · exact absurd rfl hy
  rcases los with _ | ⟨lo, los⟩
  · exact absurd rfl hlo
  rcases ups with _ | ⟨up, ups⟩
  · exact absurd rfl hup
  simp [coverageFlags]

/-- C5: when the true-value sequence handed to the per-unit evaluator is empty
(`unit_target[s:] = []`), the evaluation is skipped with the
InsufficientData condition rather than producing NaN metrics; and any metrics
the evaluator does return carry defined (non-NaN) coverage and average width. -/
theorem C5_empty_sequences_rejected (seqLen : ℕ) (unitTarget rawPreds : List α)
    (m : α) (hlen : rawPreds.length = unitTarget.length - seqLen) :
    (unitTarget.drop seqLen = [] →
      evalUnitMetrics seqLen unitTarget rawPreds m = .error .insufficientData) ∧
    (∀ r, evalUnitMetrics seqLen unitTarget rawPreds m = .ok r →
      r.coverage.isSome ∧ r.avgWidth.isSome) := by
  constructor
  · intro hdrop
    have hle : unitTarget.length ≤ seqLen := by
      have := congrArg List.length hdrop
      simp [List.length_drop] at this
      omega
    rw [evalUnitMetrics]
    rcases lt_or_eq_of_le hle with hlt | heq
    · rw [if_pos hlt]
    · rw [if_neg (by omega), if_pos (by omega)]
  · intro r hr
    rw [evalUnitMetrics] at hr
    by_cases h1 : unitTarget.length < seqLen
    · rw [if_pos h1] at hr
      exact absurd hr (by simp)
    by_cases h2 : unitTarget.length - seqLen = 0
    · rw [if_neg h1, if_pos h2] at hr
      exact absurd hr (by simp)
    rw [if_neg h1, if_neg h2] at hr
    have hy : unitTarget.drop seqLen ≠ [] := by
      intro h0
      have := congrArg List.length h0
      simp [List.length_drop] at this
      omega
    have hpl : rawPreds ≠ [] := by
      intro h0
      rw [h0] at hlen
      simp at hlen
      omega
    have hpreds : postProcessPerUnit rawPreds ≠ [] := by
      intro h0
      have := congrArg List.length h0
      rw [postProcessPerUnit_length] at this
      exact hpl (List.eq_nil_of_length_eq_zero (by simpa using this))
    have hlow : intervalLower (postProcessPerUnit rawPreds) m ≠ [] := by
      intro h0
      have := congrArg List.length h0
      simp [intervalLower] at this
      exact hpreds this
    have hflags := coverageFlags_ne_nil hy hlow hpreds
    have hzw : List.zipWith (fun u lo => u - lo) (postProcessPerUnit rawPreds)
        (intervalLower (postProcessPerUnit rawPreds) m) ≠ [] := by
      intro h0
      have hlz := congrArg List.length h0
      rw [List.length_zipWith] at hlz
      simp only [intervalLower, List.length_map, List.length_nil] at hlz
      have hp0 : (postProcessPerUnit rawPreds).length ≠ 0 :=
        fun hq => hpreds (List.eq_nil_of_length_eq_zero hq)
      omega
    rcases Except.ok.inj hr.symm with rfl
    exact ⟨npMean_isSome hflags, npMean_isSome hzw⟩

/-- Witness for C5: a two-row unit with window length 2 yields an empty true
sequence and is skipped with the InsufficientData condition. -/
theorem C5_empty_sequences_rejected_witness :
    evalUnitMetrics 2 [(5 : ℚ), 3] [] 1 = .error .insufficientData :=
  (C5_empty_sequences_rejected 2 [(5 : ℚ), 3] [] 1 (by decide)).1 (by decide)

/- ----------------------------------------------------------------------------
Claim C7: the best-model guard against non-finite S-scores.
---------------------------------------------------------------------------- -/

/-- Python float values relevant to the S-score guard: a finite value, `np.inf`
(the default of `mdict.get("S-score", np.inf)`), or NaN (what the training
paths store when a model fails, lines 224/234/288/299). -/
inductive PyFloat where
  | val : ℚ → PyFloat
  | posInf : PyFloat
  | nan : PyFloat
deriving DecidableEq

/-- IEEE-754 `<` as used by Python float comparison inside `min`: every
comparison involving NaN is false; `+inf` is below nothing and above every
finite value. -/
def pyLt : PyFloat → PyFloat → Bool
  | PyFloat.val a, PyFloat.val b => decide (a < b)
  | PyFloat.val _, PyFloat.posInf => true
  | _, _ => false

/-- `get_s_score` (lines 441-442, 601-602, 762-763):
`mdict.get("S-score", np.inf)` over the model-metrics table. -/
def getSScore (metrics : List (String × PyFloat)) (name : String) : PyFloat :=
  (metrics.lookup name).getD PyFloat.posInf

/-- `np.isinf` (lines 445, 606, 766): true only for the infinity — in
particular FALSE for NaN. -/
def npIsInf : PyFloat → Bool
  | PyFloat.posInf => true
  | _ => false

/-- The best-model selection and its guard (lines 443-447, 604-608, 764-768):
`min(self.results_metrics, key=...)` iterates over the model names in insertion
order keeping the strictly smaller key (so the first name is kept under ties or
NaN comparisons), then calibration is refused only when `np.isinf` holds of the
chosen model's S-score.  `none` models the early return ("Could not identify a
valid best model"); `some name` means calibration proceeds with that model. -/
def selectBestModel (m0 : String × PyFloat) (rest : List (String × PyFloat)) :
    Option String :=
  let metrics := m0 :: rest
  let best := (rest.map Prod.fst).foldl
    (fun b nm => if pyLt (getSScore metrics nm) (getSScore metrics b) then nm else b)
    m0.1
  if npIsInf (getSScore metrics best) then none else some best

/-- C7 counterexample: when every model's S-score is NaN — exactly what the
training paths store on failure — the `np.isinf` guard does not fire and the
selector PROCEEDS with the first model instead of signalling, refuting the
claim for the NaN case of "all quality scores inf or NaN". -/
theorem C7_nan_scores_counterexample :
    selectBestModel ("A", PyFloat.nan) [("B", PyFloat.nan)] = some "A" := rfl

/-- When every stored S-score is `+inf`, the lookup-with-default is `+inf` for
every name. -/
theorem getSScore_all_posInf {metrics : List (String × PyFloat)}
    (h : ∀ p ∈ metrics, p.2 = PyFloat.posInf) (name : String) :
    getSScore metrics name = PyFloat.posInf := by
  induction metrics with
  | nil => rfl
  | cons q qs ih =>
    have hq := h q (List.mem_cons_self q qs)
    have ih' := ih (fun p hp => h p (List.mem_cons_of_mem q hp))
    rcases q with ⟨k, v⟩
    simp only [getSScore, List.lookup] at ih' ⊢
    by_cases hk : name == k
    · rw [hk]
      exact hq
    · rw [Bool.not_eq_true] at hk
      rw [hk]
      exact ih'

/-- C7 (amended): if every model's S-score is `+inf` the guard fires and the
selector signals (returns without calibrating) rather than picking arbitrarily;
when the scores are NaN, however, the `np.isinf` guard does not catch them and
the selector proceeds with the first model (see the counterexample). -/
theorem C7_all_inf_signals (m0 : String × PyFloat) (rest : List (String × PyFloat))
    (h : ∀ p ∈ m0 :: rest, p.2 = PyFloat.posInf) :
    selectBestModel m0 rest = none := by
  simp only [selectBestModel]
  rw [getSScore_all_posInf h]
  rfl

/-- Witness for the amended C7: two models, both with infinite S-score, are
refused. -/
theorem C7_all_inf_signals_witness :
    selectBestModel ("A", PyFloat.posInf) [("B", PyFloat.posInf)] = none :=
  C7_all_inf_signals ("A", PyFloat.posInf) [("B", PyFloat.posInf)] (by decide)

/- ----------------------------------------------------------------------------
Claim C9: determinism of the bootstrap margin.
---------------------------------------------------------------------------- -/

/-- C9: the bootstrap margin is a pure function of the residual set, alpha, the
resample count and the seeded generator's draw stream, and it consumes only the
first `B*n` stream positions; since every call re-creates the generator from
`self.random_state` (lines 507/684/840), two calibration runs with identical
inputs and the same seed read the same stream prefix and produce identical
margins, in both the mean-aggregated (global) and the median-aggregated
(single-unit / per-unit) contexts. -/
theorem C9_bootstrap_deterministic [FloorRing α] (gen1 gen2 : ℕ → ℕ)
    (absRes : List α) (alpha : α) (B : ℕ)
    (h : ∀ k, k < B * absRes.length → gen1 k = gen2 k) :
    bootstrap_margin_mean gen1 absRes alpha B = bootstrap_margin_mean gen2 absRes alpha B ∧
    bootstrap_margin_median gen1 absRes alpha B = bootstrap_margin_median gen2 absRes alpha B := by
  have hq : bootstrapQuantiles gen1 absRes alpha B = bootstrapQuantiles gen2 absRes alpha B := by
    unfold bootstrapQuantiles
    apply List.map_congr_left
    intro b hb
    have hbB : b < B := List.mem_range.1 hb
    unfold resampleDraw
    congr 1
    apply List.map_congr_left
    intro k hk
    have hkn : k < absRes.length := List.mem_range.1 hk
    have hpos : b * absRes.length + k < B * absRes.length := by
      have h1 : b * absRes.length + k < (b + 1) * absRes.length := by
        rw [Nat.succ_mul]
        omega
      have h2 : (b + 1) * absRes.length ≤ B * absRes.length :=
        Nat.mul_le_mul_right _ (by omega)
      omega
    rw [h _ hpos]
  exact ⟨by rw [bootstrap_margin_mean, bootstrap_margin_mean, hq],
    by rw [bootstrap_margin_median, bootstrap_margin_median, hq]⟩

/-- Witness for C9 with the identity stream on both sides. -/
theorem C9_bootstrap_deterministic_witness :
    bootstrap_margin_mean (fun k => k) [(1 : ℚ), 2] (1 / 10) 3
      = bootstrap_margin_mean (fun k => k) [(1 : ℚ), 2] (1 / 10) 3 :=
  (C9_bootstrap_deterministic (fun k => k) (fun k => k) [(1 : ℚ), 2] (1 / 10) 3
    (fun _ _ => rfl)).1

/- ----------------------------------------------------------------------------
Claims C10 and C3: the Selected-Method cache.
---------------------------------------------------------------------------- -/

/-- The pipeline state relevant to conformal inference: the
`self.conformal_inference` cache (line 90), holding the selected
`(method_name, margin)` pair or `None`. -/
structure PipelineState where
  conformalInference : Option (String × ℝ)

/-- The "ComplexMethod" margin of `plot_conformal_prediction_interval`
(lines 519-524, 531): the median of the naive, weighted and bootstrap
(mean-aggregated) global margins. -/
noncomputable def global_complex_margin (draw : ℕ → ℕ) (absRes : List ℝ)
    (alpha : ℝ) (B : ℕ) : Option ℝ :=
  (bootstrap_margin_mean draw absRes alpha B).bind
    (fun mb => complexAggregate (naive_quantile_margin absRes alpha)
      (weighted_exponential_margin absRes alpha) mb)

/-- The median of any non-empty list exists. -/
theorem npMedian_isSome {l : List α} (hne : l ≠ []) : ∃ m, npMedian l = some m := by
  have hlen : (sortAsc l).length ≠ 0 := by
    intro h0
    exact hne (List.eq_nil_of_length_eq_zero
      ((List.length_insertionSort (· ≤ ·) l) ▸ h0))
  rcases Nat.even_or_odd (sortAsc l).length with he | ho
  · have hmod : (sortAsc l).length % 2 = 0 := Nat.even_iff.1 he
    refine ⟨((sortAsc l).getD ((sortAsc l).length / 2 - 1) 0
        + (sortAsc l).getD ((sortAsc l).length / 2) 0) / 2, ?_⟩
    simp only [npMedian]
    rw [if_neg hlen, if_neg (by omega : ¬((sortAsc l).length % 2 = 1))]
  · have hmod : (sortAsc l).length % 2 = 1 := Nat.odd_iff.1 ho
    refine ⟨(sortAsc l).getD ((sortAsc l).length / 2) 0, ?_⟩
    simp only [npMedian]
    rw [if_neg hlen, if_pos hmod]

/-- With the source's fixed `B = 200` the global ComplexMethod margin always
exists: the mean is over 200 resample quantiles and the median over three
candidates. -/
theorem global_complex_margin_isSome (draw : ℕ → ℕ) (absRes : List ℝ) (alpha : ℝ) :
    ∃ m, global_complex_margin draw absRes alpha 200 = some m := by
  have hne : bootstrapQuantiles draw absRes alpha 200 ≠ [] := by
    intro h0
    have := bootstrapQuantiles_length draw absRes alpha 200
    rw [h0] at this
    simp at this
  have h1 : (bootstrapQuantiles draw absRes alpha 200).length ≠ 0 :=
    fun h0 => hne (List.eq_nil_of_length_eq_zero h0)
  rcases npMedian_isSome
    (by simp : [naive_quantile_margin absRes alpha,
      weighted_exponential_margin absRes alpha,
      (bootstrapQuantiles draw absRes alpha 200).sum
        / (bootstrapQuantiles draw absRes alpha 200).length] ≠ [])
    with ⟨m, hm⟩
  refine ⟨m, ?_⟩
  simp only [global_complex_margin, bootstrap_margin_mean, npMean, h1, if_neg h1,
    Option.bind_some, complexAggregate]
  exact hm

/-- Lines 1058-1064 of `plot_conformal_multiple_units`: when
`self.conformal_inference` is `None`, recompute the global candidate margins
(via `plot_conformal_prediction_interval`, whose bootstrap uses its default
`B = 200`), adopt the ComplexMethod margin and install
`{best_method: "ComplexMethod", best_margin: margin}` in the cache; otherwise
reuse the stored margin.  The second component is the margin used for
rendering. -/
noncomputable def plot_conformal_multiple_units_margin (st : PipelineState)
    (draw : ℕ → ℕ) (absRes : List ℝ) (alpha : ℝ) : PipelineState × Option ℝ :=
  match st.conformalInference with
  | none =>
    match global_complex_margin draw absRes alpha 200 with
    | some m => (⟨some ("ComplexMethod", m)⟩, some m)
    | none => (st, none)
  | some q => (st, some q.2)

/-- C10: if `self.conformal_inference` is `None` when
`plot_conformal_multiple_units` is called, the call silently recomputes the
global candidate margins, adopts the ComplexMethod (median) margin, and
overwrites the cache with `{best_method: "ComplexMethod", best_margin: that
margin}` — a Selected Method is installed as a side effect of a rendering call,
with no coverage-based selection policy involved. -/
theorem C10_multiple_units_installs_complex (st : PipelineState) (draw : ℕ → ℕ)
    (absRes : List ℝ) (alpha : ℝ) (h : st.conformalInference = none) :
    ∃ m, global_complex_margin draw absRes alpha 200 = some m ∧
      plot_conformal_multiple_units_margin st draw absRes alpha
        = (⟨some ("ComplexMethod", m)⟩, some m) := by
  rcases global_complex_margin_isSome draw absRes alpha with ⟨m, hm⟩
  exact ⟨m, hm, by simp only [plot_conformal_multiple_units_margin, h, hm]⟩

/-- Witness for C10 with an empty cache and residual set `{1}`. -/
theorem C10_multiple_units_installs_complex_witness :
    ∃ m, global_complex_margin (fun k => k) [(1 : ℝ)] (1 / 20) 200 = some m ∧
      plot_conformal_multiple_units_margin ⟨none⟩ (fun k => k) [(1 : ℝ)] (1 / 20)
        = (⟨some ("ComplexMethod", m)⟩, some m) :=
  C10_multiple_units_installs_complex ⟨none⟩ (fun k => k) [1] (1 / 20) rfl

/-- One row of the candidate table `conf_df` assembled by
`plot_conformal_single_unit` (lines 729-747). -/
structure MethodRow where
  methodName : String
  marginVal : ℝ
  coverage : Option ℝ
  avgWidth : Option ℝ
  indexDiff : ℕ
  targetCoverage : ℝ

/-- The candidate table of `plot_conformal_single_unit` (lines 729-747): one
row per candidate margin, evaluated in-sample on the clamped calibration
predictions, with the target-coverage column of line 747. -/
noncomputable def singleUnitCandidateRows (marginDict : List (String × ℝ))
    (predsCal yCal : List ℝ) (alpha : ℝ) : List MethodRow :=
  marginDict.map (fun nm =>
    let lowerCal := intervalLower predsCal nm.2
    { methodName := nm.1
      marginVal := nm.2
      coverage := npMean (coverageFlags yCal lowerCal predsCal)
      avgWidth := npMean (List.zipWith (fun u lo => u - lo) predsCal lowerCal)
      indexDiff := compute_index_difference lowerCal yCal
      targetCoverage := 1 - alpha })

/-- The executed effect of `plot_conformal_single_unit` (lines 582-747): once
the guards pass, the candidate margins and the candidate table are computed and
bound to a local variable — and then the function body ends.  The selection and
storage steps promised as items 4-7 of its docstring exist only as unreachable
text (lines 938-1014) placed after the `return results_df` of
`evaluate_conformal_metrics_per_unit`.  The call therefore leaves the pipeline
state untouched and implicitly returns None. -/
noncomputable def plot_conformal_single_unit (st : PipelineState)
    (marginDict : List (String × ℝ)) (predsCal yCal : List ℝ) (alpha : ℝ) :
    PipelineState × Option (List MethodRow) :=
  let _confDf := singleUnitCandidateRows marginDict predsCal yCal alpha
  (st, none)

/-- C3: contrary to the claim (and to the function's own docstring), a
successful call of `plot_conformal_single_unit` never filters candidates by
coverage, never selects a minimum-width method, and never stores
`{method_name, margin}` in `self.conformal_inference`: for every input the
pipeline state is returned unchanged and the call returns None, because the
selection/storage block is unreachable dead code in another function. -/
theorem C3_single_unit_stores_nothing (st : PipelineState)
    (marginDict : List (String × ℝ)) (predsCal yCal : List ℝ) (alpha : ℝ) :
    (plot_conformal_single_unit st marginDict predsCal yCal alpha).1.conformalInference
        = st.conformalInference ∧
    (plot_conformal_single_unit st marginDict predsCal yCal alpha).2 = none :=
  ⟨rfl, rfl⟩

/- ----------------------------------------------------------------------------
Claim C4: what the weighted-exponential estimator actually weights by.
---------------------------------------------------------------------------- -/

/-- Members of `enumFrom` carry members of the base list. -/
theorem snd_mem_of_mem_enumFrom {β : Type*} {l : List β} {p : ℕ × β} {k : ℕ}
    (h : p ∈ l.enumFrom k) : p.2 ∈ l := by
  induction l generalizing k with
  | nil => simp [List.enumFrom] at h
  | cons x xs ih =>
    rw [List.enumFrom] at h
    rcases List.mem_cons.1 h with rfl | h'
    · exact List.mem_cons_self _ _
    · exact List.mem_cons_of_mem _ (ih h')

/-- Enumerating a sorted list yields pairs sorted by their second component. -/
theorem enumFrom_pairwise {l : List α} (h : List.Pairwise (· ≤ ·) l) (k : ℕ) :
    List.Pairwise (fun p q : ℕ × α => p.2 ≤ q.2) (l.enumFrom k) := by
  induction l generalizing k with
  | nil => simp [List.enumFrom]
  | cons x xs ih =>
    rcases List.pairwise_cons.1 h with ⟨hx, hxs⟩
    rw [List.enumFrom]
    refine List.pairwise_cons.2 ⟨?_, ih hxs (k + 1)⟩
    intro p hp
    exact hx p.2 (snd_mem_of_mem_enumFrom hp)

/-- The argsort of an already-sorted list is the identity permutation. -/
theorem argsortList_sorted {l : List α} (h : List.Pairwise (· ≤ ·) l) :
    argsortList l = List.range l.length := by
  unfold argsortList
  have hsorted : List.Sorted (fun p q : ℕ × α => p.2 ≤ q.2) l.enum :=
    enumFrom_pairwise h 0
  rw [List.Sorted.insertionSort_eq hsorted]
  exact List.enum_map_fst l

/-- Reading a list back through `getD` over its index range reproduces it. -/
theorem range_map_getD (l : List α) (n : ℕ) (hn : l.length = n) :
    (List.range n).map (fun j => l.getD j 0) = l := by
  subst hn
  induction l with
  | nil => rfl
  | cons x xs ih =>
    rw [List.length_cons, List.range_succ_eq_map, List.map_cons, List.map_map]
    refine congrArg₂ List.cons rfl ?_
    exact ih

/-- C4 (amended): the source's weighted-exponential estimator attaches the
weight `exp(i/(n/5))` to the residual at ORIGINAL position `i` and carries
those weights into ascending order through `argsort` (`weights[w_sorted_idx]`),
rather than attaching `exp(rank/(n/5))` by rank; when the residual list is
already sorted ascending, position and rank coincide and the source's estimator
agrees with the rank-weighted procedure the claim describes. -/
theorem C4_weighted_sorted_agrees (absRes : List ℝ) (alpha : ℝ)
    (h : List.Pairwise (· ≤ ·) absRes) :
    weighted_exponential_margin absRes alpha = weighted_margin_rankSpec absRes alpha := by
  simp only [weighted_exponential_margin, weighted_margin_rankSpec]
  rw [argsortList_sorted h,
    range_map_getD (weightVec absRes.length) absRes.length
      (by simp only [weightVec, List.length_map, List.length_range])]

/-- Witness for the amended C4 on the sorted residual list `[1, 2, 3]`. -/
theorem C4_weighted_sorted_agrees_witness :
    weighted_exponential_margin [(1 : ℝ), 2, 3] (1 / 20)
      = weighted_margin_rankSpec [(1 : ℝ), 2, 3] (1 / 20) :=
  C4_weighted_sorted_agrees [1, 2, 3] (1 / 20) (by norm_num)

/-- C4 counterexample: on the unsorted residual set `[5, 1, 2, 3, 4]` at
alpha = 1/20 the source estimator (position-weighted, then permuted by argsort)
returns 4, while the rank-weighted procedure described by the claim returns 5 —
so the weight is NOT assigned according to the rank in ascending order. -/
theorem C4_weighted_weights_counterexample :
    weighted_exponential_margin [5, 1, 2, 3, 4] (1 / 20) = 4 ∧
    weighted_margin_rankSpec [5, 1, 2, 3, 4] (1 / 20) = 5 ∧
    (4 : ℝ) ≠ 5 := by
  have hx1 : (2.7182818283 : ℝ) < Real.exp 1 := Real.exp_one_gt_d9
  have hx2 : Real.exp 1 < 2.7182818286 := Real.exp_one_lt_d9
  have he2 : Real.exp 2 = Real.exp 1 * Real.exp 1 := by
    rw [← Real.exp_add]; norm_num
  have he3 : Real.exp 3 = Real.exp 2 * Real.exp 1 := by
    rw [← Real.exp_add]; norm_num
  have he4 : Real.exp 4 = Real.exp 3 * Real.exp 1 := by
    rw [← Real.exp_add]; norm_num
  have hb2l : (7.389 : ℝ) < Real.exp 2 := by
    rw [he2]; nlinarith [hx1, hx2]
  have hb2u : Real.exp 2 < 7.39 := by
    rw [he2]; nlinarith [hx1, hx2]
  have hb3l : (20.08 : ℝ) < Real.exp 3 := by
    rw [he3]
    have h := mul_lt_mul'' hb2l hx1 (by norm_num) (by norm_num)
    linarith
  have hb3u : Real.exp 3 < 20.09 := by
    rw [he3]
    have h := mul_lt_mul'' hb2u hx2 (Real.exp_nonneg 2) (Real.exp_nonneg 1)
    linarith
  have hb4l : (54.58 : ℝ) < Real.exp 4 := by
    rw [he4]
    have h := mul_lt_mul'' hb3l hx1 (by norm_num) (by norm_num)
    linarith
  have hb4u : Real.exp 4 < 54.62 := by
    rw [he4]
    have h := mul_lt_mul'' hb3u hx2 (Real.exp_nonneg 3) (Real.exp_nonneg 1)
    linarith
  have hsort : sortAsc [(5 : ℝ), 1, 2, 3, 4] = [1, 2, 3, 4, 5] := by
    norm_num [sortAsc, List.insertionSort, List.orderedInsert]
  have hargs : argsortList [(5 : ℝ), 1, 2, 3, 4] = [1, 2, 3, 4, 0] := by
    norm_num [argsortList, List.insertionSort, List.orderedInsert, List.enum,
      List.enumFrom]
  have hweight : weightVec (List.length [(5 : ℝ), 1, 2, 3, 4])
      = [1, Real.exp 1, Real.exp 2, Real.exp 3, Real.exp 4] := by
    show weightVec 5 = _
    rw [weightVec]
    rw [show List.range 5 = [0, 1, 2, 3, 4] from rfl]
    norm_num [Real.exp_zero]
  refine ⟨?_, ?_, by norm_num⟩
  · have c1 : Real.exp 1
        < (1 - 1 / 20) * (Real.exp 1 + Real.exp 2 + Real.exp 3 + Real.exp 4 + 1) := by
      linarith
    have c2 : Real.exp 1 + Real.exp 2
        < (1 - 1 / 20) * (Real.exp 1 + Real.exp 2 + Real.exp 3 + Real.exp 4 + 1) := by
      linarith
    have c3 : Real.exp 1 + Real.exp 2 + Real.exp 3
        < (1 - 1 / 20) * (Real.exp 1 + Real.exp 2 + Real.exp 3 + Real.exp 4 + 1) := by
      linarith
    have c4 : ¬(Real.exp 1 + Real.exp 2 + Real.exp 3 + Real.exp 4
        < (1 - 1 / 20) * (Real.exp 1 + Real.exp 2 + Real.exp 3 + Real.exp 4 + 1)) := by
      push_neg
      linarith
    have c5 : ¬(Real.exp 1 + Real.exp 2 + Real.exp 3 + Real.exp 4 + 1
        < (1 - 1 / 20) * (Real.exp 1 + Real.exp 2 + Real.exp 3 + Real.exp 4 + 1)) := by
      push_neg
      linarith
    simp only [weighted_exponential_margin]
    rw [hargs, hsort, hweight]
    rw [show ([1, 2, 3, 4, 0] : List ℕ).map
        (fun j => ([1, Real.exp 1, Real.exp 2, Real.exp 3, Real.exp 4]).getD j 0)
        = [Real.exp 1, Real.exp 2, Real.exp 3, Real.exp 4, 1] from rfl]
    rw [show cumsum [Real.exp 1, Real.exp 2, Real.exp 3, Real.exp 4, (1 : ℝ)]
        = [0 + Real.exp 1, 0 + Real.exp 1 + Real.exp 2,
           0 + Real.exp 1 + Real.exp 2 + Real.exp 3,
           0 + Real.exp 1 + Real.exp 2 + Real.exp 3 + Real.exp 4,
           0 + Real.exp 1 + Real.exp 2 + Real.exp 3 + Real.exp 4 + 1] from rfl]
    simp only [zero_add]
    rw [show List.getLastD [Real.exp 1, Real.exp 1 + Real.exp 2,
        Real.exp 1 + Real.exp 2 + Real.exp 3,
        Real.exp 1 + Real.exp 2 + Real.exp 3 + Real.exp 4,
        Real.exp 1 + Real.exp 2 + Real.exp 3 + Real.exp 4 + 1] (0 : ℝ)
        = Real.exp 1 + Real.exp 2 + Real.exp 3 + Real.exp 4 + 1 from rfl]
    simp only [countBelow]
    rw [if_pos c1, if_pos c2, if_pos c3, if_neg c4, if_neg c5]
    rfl
  · have s1 : (1 : ℝ)
        < (1 - 1 / 20) * (1 + Real.exp 1 + Real.exp 2 + Real.exp 3 + Real.exp 4) := by
      linarith
    have s2 : 1 + Real.exp 1
        < (1 - 1 / 20) * (1 + Real.exp 1 + Real.exp 2 + Real.exp 3 + Real.exp 4) := by
      linarith
    have s3 : 1 + Real.exp 1 + Real.exp 2
        < (1 - 1 / 20) * (1 + Real.exp 1 + Real.exp 2 + Real.exp 3 + Real.exp 4) := by
      linarith
    have s4 : 1 + Real.exp 1 + Real.exp 2 + Real.exp 3
        < (1 - 1 / 20) * (1 + Real.exp 1 + Real.exp 2 + Real.exp 3 + Real.exp 4) := by
      linarith
    have s5 : ¬(1 + Real.exp 1 + Real.exp 2 + Real.exp 3 + Real.exp 4
        < (1 - 1 / 20) * (1 + Real.exp 1 + Real.exp 2 + Real.exp 3 + Real.exp 4)) := by
      push_neg
      linarith
    simp only [weighted_margin_rankSpec]
    rw [hsort, hweight]
    rw [show cumsum [(1 : ℝ), Real.exp 1, Real.exp 2, Real.exp 3, Real.exp 4]
        = [0 + 1, 0 + 1 + Real.exp 1, 0 + 1 + Real.exp 1 + Real.exp 2,
           0 + 1 + Real.exp 1 + Real.exp 2 + Real.exp 3,
           0 + 1 + Real.exp 1 + Real.exp 2 + Real.exp 3 + Real.exp 4] from rfl]
    simp only [zero_add]
    rw [show List.getLastD [(1 : ℝ), 1 + Real.exp 1, 1 + Real.exp 1 + Real.exp 2,
        1 + Real.exp 1 + Real.exp 2 + Real.exp 3,
        1 + Real.exp 1 + Real.exp 2 + Real.exp 3 + Real.exp 4] (0 : ℝ)
        = 1 + Real.exp 1 + Real.exp 2 + Real.exp 3 + Real.exp 4 from rfl]
    simp only [countBelow]
    rw [if_pos s1, if_pos s2, if_pos s3, if_pos s4, if_neg s5]
    rfl

end CPdM
